import Mathlib

/-!
Verification development for the `adsource-openrtb` OpenRTB demand-source driver.

The Go sources are shallowly embedded: pure functions become Lean functions,
the stateful driver admission logic becomes explicit state passing, Go slices
that are mutated in place during iteration are modelled with an explicit
backing-array + length representation (so the aliasing behaviour of
`append(s[:j], s[j+1:]...)` inside a `range` loop is reproduced exactly),
and run-time panics are modelled by `Option.none`.  Machine integers of the
driver's timestamp arithmetic (`uint64`) are modelled as `Nat` with explicit
wrap-around `% 2^64`.  External collaborator functions (JSON struct marshal
of the external `bsm/openrtb` native request, XML pop-markup decoding, URL
query unescaping, price policy) are abstracted as parameters, never stubbed
where a claim depends on them.
-/

namespace AdsourceOpenrtb

/-- Extension payload of a bid, as decoded by `customDirectURL`
(`src/unnamed/part_002`): either JSON that fails to decode into the
`{url, landingpage, link}` struct, or the decoded triple (missing JSON
fields decode to the empty string, as in Go). -/
inductive BidExt where
  | invalid
  | fields (url landingpage link : String)
deriving DecidableEq, Repr

/-- Embedding of `openrtb.Bid` (the fields the repository reads/writes). -/
structure Bid where
  impID : String
  price : ℚ
  adMarkup : String
  nurl : String
  burl : String
  w : Int
  h : Int
  adID : String
  ext : BidExt
deriving DecidableEq, Repr

instance : Inhabited Bid :=
  ⟨{ impID := "", price := 0, adMarkup := "", nurl := "", burl := "",
     w := 0, h := 0, adID := "", ext := .invalid }⟩

/-- Embedding of `openrtb.SeatBid` (the fields the repository touches). -/
structure SeatBid where
  bid : List Bid
  group : Int
deriving DecidableEq, Repr

instance : Inhabited SeatBid := ⟨{ bid := [], group := 0 }⟩

/-- RTB source request type enum, aliased in `src/unnamed/part_000` from
`admodels.RTBRequestType*`. -/
inductive RequestType where
  | undefined
  | json
  | xml
  | protobuff
  | postFormEncoded
  | plain
deriving DecidableEq, Repr

/-- Errors produced by the decoding dispatch of `driver.unmarshal`
(`src/driver.go`).  `unsupported`/`undefinedType` carry the request type
whose `Name()` the Go code interpolates into the message. -/
inductive DecodeErr where
  | unsupported (t : RequestType)
  | undefinedType (t : RequestType)
  | jsonDecodeFailed
  | responseAreNotSecure
deriving DecidableEq, Repr

/-- Body-decoding dispatch of `driver.unmarshal` (`src/driver.go` lines
329-348).  The JSON decoding itself happens in `encoding/json`; it is
abstracted as the `body` argument: `some r` when the body decodes to the
bid response `r`, `none` when JSON decoding fails. -/
def unmarshalDecode (t : RequestType) (body : Option (List SeatBid)) :
    Except DecodeErr (List SeatBid) :=
  match t with
  | .json => match body with
    | some r => .ok r
    | none => .error .jsonDecodeFailed
  | .xml => .error (.unsupported .xml)
  | .protobuff => .error (.unsupported .protobuff)
  | t => .error (.undefinedType t)

/-- Embedding of `types.Format` (external `adcorelib` model): the predicate
methods and the nominal dimensions the repository reads. -/
structure Format where
  codename : String
  isBanner : Bool
  isProxy : Bool
  isNative : Bool
  isDirect : Bool
  isStretch : Bool
  width : Int
  height : Int
deriving DecidableEq, Repr

/-- Embedding of `adtype.Impression` (request side): the fields read by
`openrtbV2ImpressionByFormat` / `openrtbV3ImpressionByFormat`. -/
structure Imp where
  id : String
  width : Int
  height : Int
  widthMax : Int
  heightMax : Int
  pos : Int
  isDirect : Bool
  bidFloorCPM : ℚ
  targetCodename : String
  directFormat : Option Format
  formats : List Format
deriving DecidableEq, Repr

/-- Embedding of `openrtb.Banner` (the fields the mapper fills). -/
structure WireBanner where
  w : Int
  h : Int
  wMax : Int
  hMax : Int
  wMin : Int
  hMin : Int
  pos : Int
deriving DecidableEq, Repr

/-- Embedding of `openrtb.Impression` as emitted by the format mapper.
`native` carries the double-encoded native payload string; `ext` carries
the raw extension bytes as a string. -/
structure WireImp where
  id : String
  banner : Option WireBanner
  native : Option String
  ext : Option String
  instl : Int
  tagID : String
  bidFloor : ℚ
  secure : Int
deriving DecidableEq, Repr

/-- Go `b2i`: boolean to 0/1 int. -/
def b2i (b : Bool) : Int := if b then 1 else 0

/-- Per-format impression id; `adtype.Impression.IDByFormat` is external
`adcorelib` code.  Modelled from the spec: scenario S1 of `spec.md` shows
impression id `"i1"` with format codename `"b"` yielding wire id `"i1_b"`. -/
def idByFormat (imp : Imp) (format : Format) : String :=
  imp.id ++ "_" ++ format.codename

/-- Banner branch and dispatch of `openrtbV2ImpressionByFormat`
(`src/request_v2.go` lines 50-116).  The native payload (produced via
`openrtbV2NativeRequest`, whose struct marshal is external) is passed in as
`nativePayload`; `optBidFloor` is `opts.BidFloor`. -/
def openrtbV2ImpressionByFormat (imp : Imp) (format : Format)
    (nativePayload : String) (optBidFloor : ℚ) : Option WireImp :=
  let mk : Option WireBanner → Option String → Option String → WireImp :=
    fun banner native ext =>
      { id := idByFormat imp format
        banner := banner
        native := native
        ext := ext
        instl := b2i imp.isDirect
        tagID := imp.targetCodename ++ "_" ++ format.codename
        bidFloor := max imp.bidFloorCPM optBidFloor
        secure := 0 }
  if format.isBanner || format.isProxy then
    let w := imp.width
    let h := imp.height
    let wm := imp.widthMax
    let wh := imp.heightMax
    let wh2 : Int × Int := if w < 1 ∧ h < 1 then (format.width, format.height) else (w, h)
    let wmh : Int × Int := if !format.isStretch then (0, 0) else (wm, wh)
    some (mk (some { w := max wh2.1 5, h := max wh2.2 5,
                     wMax := wmh.1, hMax := wmh.2,
                     wMin := 0, hMin := 0, pos := imp.pos }) none none)
  else if format.isNative then
    some (mk none (some nativePayload) none)
  else if format.isDirect then
    some (mk none none (some "\x7b\"type\":\"pop\"\x7d"))
  else
    none

/-- Banner branch and dispatch of `openrtbV3ImpressionByFormat`
(`src/unnamed/part_000` lines 49-115); the logic is shared with the 2.x
mapper, only the wire field names differ. -/
def openrtbV3ImpressionByFormat (imp : Imp) (format : Format)
    (nativePayload : String) (optBidFloor : ℚ) : Option WireImp :=
  let mk : Option WireBanner → Option String → Option String → WireImp :=
    fun banner native ext =>
      { id := idByFormat imp format
        banner := banner
        native := native
        ext := ext
        instl := b2i imp.isDirect
        tagID := imp.targetCodename ++ "_" ++ format.codename
        bidFloor := max imp.bidFloorCPM optBidFloor
        secure := 0 }
  if format.isBanner || format.isProxy then
    let w := imp.width
    let h := imp.height
    let wm := imp.widthMax
    let wh := imp.heightMax
    let wh2 : Int × Int := if w < 1 ∧ h < 1 then (format.width, format.height) else (w, h)
    let wmh : Int × Int := if !format.isStretch then (0, 0) else (wm, wh)
    some (mk (some { w := max wh2.1 5, h := max wh2.2 5,
                     wMax := wmh.1, hMax := wmh.2,
                     wMin := 0, hMin := 0, pos := imp.pos }) none none)
  else if format.isNative then
    some (mk none (some nativePayload) none)
  else if format.isDirect then
    some (mk none none (some "\x7b\"type\":\"pop\"\x7d"))
  else
    none

/-- Go map read `bids[k]`: first association-list entry with the key. -/
def mapGet (m : List (String × Bid)) (k : String) : Option Bid :=
  match m with
  | [] => none
  | kv :: rest => if kv.1 = k then some kv.2 else mapGet rest k

/-- Single step of the `bids` map construction in `BidResponse.OptimalBids`
(`src/adresponse/response_bid.go` lines 276-283): keep the stored bid unless
the new bid's price is strictly greater.  The Go map is modelled as an
association list in key-insertion order. -/
def optimalUpd (m : List (String × Bid)) (bid : Bid) : List (String × Bid) :=
  match mapGet m bid.impID with
  | none => m ++ [(bid.impID, bid)]
  | some obid =>
    if obid.price < bid.price then
      m.map (fun kv => if kv.1 = bid.impID then (bid.impID, bid) else kv)
    else m

/-- Per-key effect of one `optimalUpd` step: keep the incumbent unless the
challenger's price is strictly greater (so price ties keep the first-seen
bid). -/
def pickBest : Option Bid → Bid → Option Bid
  | none, b => some b
  | some o, b => if o.price < b.price then some b else some o

/-- Well-formedness of the association-list model of the Go map: keys are
distinct and each stored bid carries its key as its impression id. -/
def mapWF (m : List (String × Bid)) : Prop :=
  (m.map Prod.fst).Nodup ∧ ∀ kv ∈ m, (kv : String × Bid).2.impID = kv.1

/-- Cache-miss computation of `BidResponse.OptimalBids`: fold over every bid
of every seat in order, then list the map's values. -/
def optimalBids (seats : List SeatBid) : List Bid :=
  ((seats.map SeatBid.bid).flatten.foldl optimalUpd []).map Prod.snd

/-- Cache-relevant state of `adresponse.BidResponse`. -/
structure BidResponseState where
  seatBid : List SeatBid
  optimalCache : List Bid
deriving DecidableEq, Repr

/-- Full `BidResponse.OptimalBids` call including the
`if len(r.optimalBids) > 0` cache short-circuit; returns the result and the
updated receiver state. -/
def optimalBidsCall (st : BidResponseState) : List Bid × BidResponseState :=
  if 0 < st.optimalCache.length then (st.optimalCache, st)
  else
    let r := optimalBids st.seatBid
    (r, { st with optimalCache := r })

/-- Seat slice header in the backing-array model of the max-bid filter:
`bidsIdx` is the identity (heap index) of the seat's bid backing array,
`bidsLen` the current slice length. -/
structure SeatH where
  bidsIdx : Nat
  bidsLen : Nat
  group : Int
deriving DecidableEq, Repr

instance : Inhabited SeatH := ⟨{ bidsIdx := 0, bidsLen := 0, group := 0 }⟩

/-- Effect of Go `s = append(s[:j], s[j+1:]...)` on the backing array `arr`
when the slice currently has length `n`: positions `j .. n-2` receive the old
values at `j+1 .. n-1`; everything else is unchanged. -/
def removeShift (arr : List Bid) (j n : Nat) : List Bid :=
  arr.take j ++ (arr.drop (j + 1)).take (n - 1 - j) ++ arr.drop (n - 1)

/-- Same in-place shift for the seat-header backing array of
`bidResp.SeatBid`. -/
def seatShift (arr : List SeatH) (i n : Nat) : List SeatH :=
  arr.take i ++ (arr.drop (i + 1)).take (n - 1 - i) ++ arr.drop (n - 1)

/-- Inner loop of the max-bid filter (`src/driver.go` lines 370-377):
`for j, bid := range seat.Bid` iterates `j` up to the length `L` captured at
loop entry, reading the current contents of the backing array `arr`; a
removal `seat.Bid = append(seat.Bid[:j], seat.Bid[j+1:]...)` shifts the
backing array in place and shrinks the current length `n`, and panics
(modelled as `none`) when `j+1` exceeds the current length.  The remaining
iteration count `L - j` is passed as the structurally decreasing first
argument, so the call is `maxBidInner maxBid L 0 arr n false`. -/
def maxBidInner (maxBid : ℚ) : Nat → Nat → List Bid → Nat → Bool →
    Option (List Bid × Nat × Bool)
  | 0, _, arr, n, changed => some (arr, n, changed)
  | fuel + 1, j, arr, n, changed =>
    let bid := arr.getD j default
    if maxBid < bid.price then
      if n < j + 1 then none
      else maxBidInner maxBid fuel (j + 1) (removeShift arr j n) (n - 1) true
    else maxBidInner maxBid fuel (j + 1) arr n changed

/-- Outer loop of the max-bid filter (`src/driver.go` lines 368-385):
iterates seat indices up to the captured length `Ls`, reading the current
seat header; on a seat emptied by the inner loop it removes the header by
the same in-place shift, otherwise (when changed) writes the updated header
back through the current slice (panicking if the index is out of range).
The remaining iteration count `Ls - i` is the structurally decreasing first
argument, so the call is `maxBidOuter maxBid Ls 0 heap sarr ns`. -/
def maxBidOuter (maxBid : ℚ) : Nat → Nat → List (List Bid) → List SeatH →
    Nat → Option (List (List Bid) × List SeatH × Nat)
  | 0, _, heap, sarr, ns => some (heap, sarr, ns)
  | fuel + 1, i, heap, sarr, ns =>
    let sh := sarr.getD i default
    let arr := heap.getD sh.bidsIdx []
    match maxBidInner maxBid arr.length 0 arr sh.bidsLen false with
    | none => none
    | some (arr', n', changed) =>
      let heap' := heap.set sh.bidsIdx arr'
      if changed then
        if n' = 0 then
          if ns < i + 1 then none
          else maxBidOuter maxBid fuel (i + 1) heap' (seatShift sarr i ns) (ns - 1)
        else
          if i < ns then
            maxBidOuter maxBid fuel (i + 1) heap' (sarr.set i { sh with bidsLen := n' }) ns
          else none
      else maxBidOuter maxBid fuel (i + 1) heap' sarr ns

/-- Max-bid filtering step of `driver.unmarshal` (`src/driver.go` lines
366-386): skipped entirely unless `source.MaxBid > 0`; otherwise the two
mutating range loops run over the backing-array model and the surviving
seats are read back through the final headers. -/
def maxBidFilter (maxBid : ℚ) (seats : List SeatBid) : Option (List SeatBid) :=
  if 0 < maxBid then
    let heap := seats.map SeatBid.bid
    let sarr := seats.enum.map
      (fun p => ({ bidsIdx := p.1, bidsLen := p.2.bid.length, group := p.2.group } : SeatH))
    match maxBidOuter maxBid seats.length 0 heap sarr seats.length with
    | none => none
    | some (heap', sarr', ns) =>
      some ((sarr'.take ns).map
        (fun sh => { bid := (heap'.getD sh.bidsIdx []).take sh.bidsLen, group := sh.group }))
  else some seats

/-- Go `strings.Contains s sub`. -/
def goContains (s sub : String) : Bool := decide (sub.data <:+: s.data)

/-- Secure scan of `driver.unmarshal` (`src/driver.go` lines 355-363): some
bid in some seat has markup containing the literal `http://`. -/
def anyInsecure (seats : List SeatBid) : Bool :=
  seats.any (fun seat => seat.bid.any (fun bid => goContains bid.adMarkup "http://"))

/-- Normalization tail of `driver.unmarshal` after a successful body decode
(`src/driver.go` lines 354-401): secure rejection, max-bid filter (whose
in-place mutation can panic, modelled by the outer `none`), and the
empty-response short-circuit `return nil, nil`.  The surviving seats are
the ones wrapped into the `adresponse.BidResponse` that `Prepare` then
processes. -/
def unmarshalNorm (isSecure : Bool) (maxBid : ℚ) (resp : List SeatBid) :
    Option (Except DecodeErr (Option (List SeatBid))) :=
  if isSecure ∧ anyInsecure resp then some (.error .responseAreNotSecure)
  else
    match maxBidFilter maxBid resp with
    | none => none
    | some seats =>
      if seats.length = 0 then some (.ok none)
      else some (.ok (some seats))

/-- Outcome of the response-selection tail of `driver.Bid` (`src/driver.go`
lines 208-227): an error response (only when tracing is on and unmarshal
errored), the parsed bid response, or the `bidresponse.NewEmptyResponse`
fallback carrying whatever error unmarshal produced. -/
inductive BidOutcome where
  | errorResp (e : DecodeErr)
  | bidResp (seats : List SeatBid)
  | emptyResp (e : Option DecodeErr)
deriving DecidableEq, Repr

/-- Response selection of `driver.Bid` as a function of the unmarshal
result (`res`, `err`): `response` starts `nil`, is set to an error response
only when `Trace != 0 && err != nil`, is set to `res` when non-nil, and
falls back to `NewEmptyResponse(request, d, err)` when still `nil`. -/
def bidTail (traceOn : Bool) (r : Except DecodeErr (Option (List SeatBid))) :
    BidOutcome :=
  match r with
  | .error e => if traceOn then .errorResp e else .emptyResp (some e)
  | .ok (some seats) => .bidResp seats
  | .ok none => .emptyResp none

/-- Mutable driver state read and written by `driver.Test` and `driver.Bid`
(`src/driver.go`): the `uint64` timestamp of the last RPS-window reset, the
current-window RPS counter, and the number of `IncSkip` calls observed by
the metrics sink. -/
structure DriverState where
  lastRequestTime : Nat
  rpsCurrent : Int
  skips : Nat
deriving DecidableEq, Repr

/-- Modulus of Go `uint64` arithmetic. -/
def u64 : Nat := 2 ^ 64

/-- Go `uint64` subtraction `a - b` with wrap-around. -/
def usub64 (a b : Nat) : Nat := (a + u64 - b) % u64

/-- Go `uint64(time.Second)` in nanoseconds. -/
def nanosPerSecond : Nat := 1000000000

/-- One call of `driver.Test` (`src/driver.go` lines 133-156).  `rps` is
`source.RPS`, `errorsIgnore` is `source.Options.ErrorsIgnore`, `errNextOk`
abstracts the external `errorCounter.Next()`, `sourceTestOk` abstracts the
external `source.Test(request)`, and `now` is the current nanosecond
timestamp.  Returns the admission decision and the updated state. -/
def testCall (rps errorsIgnore : Int) (errNextOk sourceTestOk : Bool)
    (now : Nat) (st : DriverState) : Bool × DriverState :=
  if 0 < rps then
    if errorsIgnore = 0 ∧ errNextOk = false then
      (false, { st with skips := st.skips + 1 })
    else if nanosPerSecond ≤ usub64 now st.lastRequestTime then
      let st := { st with lastRequestTime := now, rpsCurrent := 0 }
      if sourceTestOk then (true, st)
      else (false, { st with skips := st.skips + 1 })
    else if rps ≤ st.rpsCurrent then
      (false, { st with skips := st.skips + 1 })
    else if sourceTestOk then (true, st)
    else (false, { st with skips := st.skips + 1 })
  else if sourceTestOk then (true, st)
  else (false, { st with skips := st.skips + 1 })

/-- RPS-counter increment performed at the top of `driver.Bid`
(`src/driver.go` line 173). -/
def bidRPSInc (st : DriverState) : DriverState :=
  { st with rpsCurrent := st.rpsCurrent + 1 }

/-- Sequence of bare `Test` calls (no intervening `Bid`) at the given
timestamps; returns the admission decisions and the final state. -/
def runTests (rps errorsIgnore : Int) (errNextOk sourceTestOk : Bool) :
    List Nat → DriverState → List Bool × DriverState
  | [], st => ([], st)
  | t :: ts, st =>
    let r := testCall rps errorsIgnore errNextOk sourceTestOk t st
    let rest := runTests rps errorsIgnore errNextOk sourceTestOk ts r.2
    (r.1 :: rest.1, rest.2)

/-- Sequence of `Test`-then-`Bid` interactions (the documented driver usage:
`if driver.Test(request) { driver.Bid(request) }`): each admitted call is
followed by the `Bid` RPS increment. -/
def runTestBid (rps errorsIgnore : Int) (errNextOk sourceTestOk : Bool) :
    List Nat → DriverState → List Bool × DriverState
  | [], st => ([], st)
  | t :: ts, st =>
    let r := testCall rps errorsIgnore errNextOk sourceTestOk t st
    let st' := if r.1 then bidRPSInc r.2 else r.2
    let rest := runTestBid rps errorsIgnore errNextOk sourceTestOk ts st'
    (r.1 :: rest.1, rest.2)

/-- Lexicographic strictly-less on codepoint lists; on valid UTF-8 strings
this coincides with Go's byte-wise string ordering (UTF-8 preserves
codepoint order). -/
def charsLt : List Char → List Char → Bool
  | [], [] => false
  | [], _ :: _ => true
  | _ :: _, [] => false
  | a :: as, b :: bs =>
    if a.toNat < b.toNat then true
    else if b.toNat < a.toNat then false
    else charsLt as bs

/-- Go builtin `max` on two strings (larger in byte-wise lexicographic
order). -/
def goMax2 (a b : String) : String := if charsLt a.data b.data then b else a

/-- Embedding of `customDirectURL` (`src/unnamed/part_002` lines 27-37):
on JSON decode failure the Go code returns `val = ""` (and the caller
discards the error); on success it returns the Go builtin
`max(item.URL, item.LandingPage, item.Link)` — the lexicographically
largest of the three decoded fields. -/
def customDirectURL : BidExt → String
  | .invalid => ""
  | .fields url landingpage link => goMax2 (goMax2 url landingpage) link

/-- First replacer pattern (with its replacement and length) matching at the
head of `hay`, in argument order; patterns are the nonempty macro literals
of `newBidReplacer`, so only nonempty patterns are consulted. -/
def tryRepl (pairs : List (String × String)) (hay : List Char) :
    Option (List Char × Nat) :=
  match pairs with
  | [] => none
  | (pat, rep) :: rest =>
    if pat.data ≠ [] ∧ pat.data.isPrefixOf hay then
      some (rep.data, pat.data.length)
    else tryRepl rest hay

/-- Scan of `strings.Replacer.Replace`: replacements are performed at the
leftmost match, comparing patterns in argument order, without overlapping
matches.  Every step consumes at least one character, so running the scan
with `fuel = hay.length` (structurally decreasing) processes the whole
input. -/
def goReplaceAux (pairs : List (String × String)) : Nat → List Char → List Char
  | 0, _ => []
  | _, [] => []
  | fuel + 1, c :: rest =>
    match tryRepl pairs (c :: rest) with
    | some (rep, k) => rep ++ goReplaceAux pairs fuel (rest.drop (k - 1))
    | none => c :: goReplaceAux pairs fuel rest

/-- Go `strings.Replacer.Replace` over whole strings. -/
def goReplace (pairs : List (String × String)) (s : String) : String :=
  ⟨goReplaceAux pairs s.data.length s.data⟩

/-- External collaborator functions used by `BidResponse.Prepare` and
`prepareBidItem`, abstracted as parameters: `priceFmt` is
`fmt.Sprintf("%.6f", price)`; `queryUnescape` is `url.QueryUnescape`
composed with its on-error fallback to the original string; `popDecode` is
`decodePopMarkup` (XML `popunderAd>url` extraction, empty on error);
`nativeDecode` is `decodeNativeMarkup` returning the native response's
`Link.URL` on success; `calcBidPrice` is `price.CalculateNewBidPrice`. -/
structure PrepareEnv where
  priceFmt : ℚ → String
  queryUnescape : String → String
  popDecode : String → String
  nativeDecode : String → Option String
  calcBidPrice : ℚ → ℚ

/-- Macro table of `BidResponse.newBidReplacer`
(`src/adresponse/response_bid.go` lines 318-327). -/
def macroPairs (env : PrepareEnv) (respID respBidID : String) (bid : Bid) :
    List (String × String) :=
  [("$\x7bAUCTION_AD_ID\x7d", bid.adID),
   ("$\x7bAUCTION_ID\x7d", respID),
   ("$\x7bAUCTION_BID_ID\x7d", respBidID),
   ("$\x7bAUCTION_IMP_ID\x7d", bid.impID),
   ("$\x7bAUCTION_PRICE\x7d", env.priceFmt bid.price),
   ("$\x7bAUCTION_CURRENCY\x7d", "USD")]

/-- Embedding of `prepareURL` (`src/unnamed/part_002` lines 49-57). -/
def prepareURL (env : PrepareEnv) (pairs : List (String × String))
    (surl : String) : String :=
  if surl = "" then surl
  else goReplace pairs (env.queryUnescape surl)

/-- Per-bid transformation of the first loop of `BidResponse.Prepare`
(`src/adresponse/response_bid.go` lines 81-108): W/H backfill, direct-mode
markup extraction from the extension, pop-XML unwrap, then macro
substitution in markup, NURL and BURL.  `lookup` abstracts the external
`Req.ImpressionByIDvariation`. -/
def prepareBid (env : PrepareEnv) (lookup : String → Option Imp)
    (respID respBidID : String) (bid : Bid) : Bid :=
  let bid :=
    match lookup bid.impID with
    | some imp =>
      let bid :=
        if bid.w = 0 ∧ bid.h = 0 then { bid with w := imp.width, h := imp.height }
        else bid
      if imp.isDirect then
        let bid :=
          if bid.adMarkup = "" then { bid with adMarkup := customDirectURL bid.ext }
          else bid
        if "<?xml".data.isPrefixOf bid.adMarkup.data then
          { bid with adMarkup := env.popDecode bid.adMarkup }
        else bid
      else bid
    | none => bid
  let pairs := macroPairs env respID respBidID bid
  { bid with
    adMarkup := goReplace pairs bid.adMarkup
    nurl := prepareURL env pairs bid.nurl
    burl := prepareURL env pairs bid.burl }

/-- Resolved format type of a response item. -/
inductive FormatType where
  | direct
  | native
  | banner
  | proxy
deriving DecidableEq, Repr

/-- Embedding of `bannerFormatType` (`src/unnamed/part_002` lines 39-47). -/
def bannerFormatType (markup : String) : FormatType :=
  if markup.startsWith "http://" ∨ markup.startsWith "https://" ∨
      (markup.startsWith "//" ∧ ¬markup.data.any (fun c => c = '\n' ∨ c = '\t')) ∨
      goContains markup "<iframe" then
    .proxy
  else .banner

/-- Embedding of `adresponse.ResponseBidItem` (the fields the claims
mention). -/
structure RBItem where
  itemID : String
  formatType : FormatType
  actionLink : String
  bid : Bid
  bidPrice : ℚ
  viewPrice : ℚ
  ecpm : ℚ
deriving DecidableEq, Repr

/-- Embedding of `BidResponse.prepareBidItem`
(`src/adresponse/response_bid.go` lines 127-216): format resolution
(direct-format lookup for direct impressions, per-format id match
otherwise), the format-kind dispatch, and the pricing block. -/
def prepareBidItem (env : PrepareEnv) (bid : Bid) (imp : Imp) : Option RBItem :=
  let fmt? : Option Format :=
    if imp.isDirect then imp.directFormat
    else imp.formats.find? (fun f => bid.impID = idByFormat imp f)
  match fmt? with
  | none => none
  | some format =>
    let base : FormatType → String → RBItem := fun ft al =>
      { itemID := imp.id, formatType := ft, actionLink := al, bid := bid,
        bidPrice := env.calcBidPrice (bid.price / 1000),
        viewPrice := bid.price / 1000, ecpm := bid.price }
    if format.isDirect then some (base .direct bid.adMarkup)
    else if format.isNative then
      match env.nativeDecode bid.adMarkup with
      | some linkURL => some (base .native linkURL)
      | none => none
    else if format.isBanner || format.isProxy then
      some (base (bannerFormatType bid.adMarkup) "")
    else none

/-- Embedding of `BidResponse.Prepare` (`src/adresponse/response_bid.go`
lines 77-122): the per-bid preparation map over every seat, followed by ad
item materialization from the optimal bids.  Returns the rewritten seats
and the accumulated ad items. -/
def prepareResponse (env : PrepareEnv) (lookup : String → Option Imp)
    (respID respBidID : String) (seats : List SeatBid) :
    List SeatBid × List RBItem :=
  let seats' := seats.map
    (fun seat => { seat with bid := seat.bid.map (prepareBid env lookup respID respBidID) })
  let items := (optimalBids seats').filterMap
    (fun bid => (lookup bid.impID).bind (fun imp => prepareBidItem env bid imp))
  (seats', items)

/-- Lowercase hex digit, as in `encoding/json`'s digit table. -/
def hexDigitChar (n : Nat) : Char :=
  if n < 10 then Char.ofNat (48 + n) else Char.ofNat (87 + n)

/-- Escaping performed by Go `encoding/json` when marshalling a string
value (with the default HTML escaping): `"`, `\`, `\n`, `\r`, `\t` get
short escapes; other control characters, `<`, `>`, `&` become `\u00xx`
escapes; U+2028/U+2029 become ` `/` `; everything else is copied
verbatim. -/
def goJSONEscapeChar (c : Char) : List Char :=
  if c = '"' then ['\\', '"']
  else if c = '\\' then ['\\', '\\']
  else if c = '\n' then ['\\', 'n']
  else if c = '\r' then ['\\', 'r']
  else if c = '\t' then ['\\', 't']
  else if c = '<' then ['\\', 'u', '0', '0', '3', 'c']
  else if c = '>' then ['\\', 'u', '0', '0', '3', 'e']
  else if c = '&' then ['\\', 'u', '0', '0', '2', '6']
  else if c.toNat < 32 then
    ['\\', 'u', '0', '0', hexDigitChar (c.toNat / 16), hexDigitChar (c.toNat % 16)]
  else if c.toNat = 8232 then ['\\', 'u', '2', '0', '2', '8']
  else if c.toNat = 8233 then ['\\', 'u', '2', '0', '2', '9']
  else [c]

/-- Go `json.Marshal` applied to a string value: a quoted, escaped string
literal. -/
def goJSONMarshalString (s : String) : String :=
  ⟨'"' :: ((s.data.map goJSONEscapeChar).flatten ++ ['"'])⟩

/-- Hex digit value for the JSON `\uXXXX` escape. -/
def hexVal (c : Char) : Option Nat :=
  if '0' ≤ c ∧ c ≤ '9' then some (c.toNat - 48)
  else if 'a' ≤ c ∧ c ≤ 'f' then some (c.toNat - 87)
  else if 'A' ≤ c ∧ c ≤ 'F' then some (c.toNat - 55)
  else none

/-- Body of a JSON string-literal parser: consumes characters until the
closing quote, which must end the input; `acc` holds the decoded characters
in reverse. -/
def jsonStrBody : List Char → List Char → Option (List Char)
  | [], _ => none
  | c :: rest, acc =>
    if c = '"' then (if rest.isEmpty then some acc.reverse else none)
    else if c = '\\' then
      match rest with
      | [] => none
      | e :: rest2 =>
        if e = '"' ∨ e = '\\' ∨ e = '/' then jsonStrBody rest2 (e :: acc)
        else if e = 'b' then jsonStrBody rest2 (Char.ofNat 8 :: acc)
        else if e = 'f' then jsonStrBody rest2 (Char.ofNat 12 :: acc)
        else if e = 'n' then jsonStrBody rest2 ('\n' :: acc)
        else if e = 'r' then jsonStrBody rest2 ('\r' :: acc)
        else if e = 't' then jsonStrBody rest2 ('\t' :: acc)
        else if e = 'u' then
          match rest2 with
          | h1 :: h2 :: h3 :: h4 :: rest3 =>
            match hexVal h1, hexVal h2, hexVal h3, hexVal h4 with
            | some v1, some v2, some v3, some v4 =>
              jsonStrBody rest3 (Char.ofNat (4096 * v1 + 256 * v2 + 16 * v3 + v4) :: acc)
            | _, _, _, _ => none
          | _ => none
        else none
    else jsonStrBody rest (c :: acc)
termination_by l _ => l.length

/-- Parse an entire input as one JSON string value. -/
def jsonParseStringLit (s : String) : Option String :=
  match s.data with
  | '"' :: rest => (jsonStrBody rest []).map (fun cs => ⟨cs⟩)
  | _ => none

/-- Wrapping step shared by `openrtbV2NativeRequest` (`src/request_v2.go`
lines 139-144) and `openrtbV3NativeRequest` (`src/unnamed/part_000` lines
131-136): given the `json.Marshal` serialization of the native request
(produced by the external `bsm/openrtb` library and passed in here), build
the textual form `{"native":<serialized>}` and JSON-encode that whole text
as a JSON string value. -/
def openrtbNativeWrap (serialized : String) : String :=
  goJSONMarshalString ("\x7b\"native\":" ++ serialized ++ "\x7d")

/-- Fixture bid for concrete evaluations; only the price varies. -/
def testBid (p : ℚ) : Bid :=
  { impID := "i1_b", price := p, adMarkup := "", nurl := "", burl := "",
    w := 0, h := 0, adID := "", ext := .invalid }

/-- Fixture preparation environment instantiating the abstracted external
collaborators. -/
def testEnv : PrepareEnv :=
  { priceFmt := fun _ => "0.000000", queryUnescape := id,
    popDecode := fun _ => "", nativeDecode := fun _ => none,
    calcBidPrice := id }

/-- Fixture direct format. -/
def testDirectFormat : Format :=
  { codename := "d", isBanner := false, isProxy := false, isNative := false,
    isDirect := true, isStretch := false, width := 0, height := 0 }

/-- Fixture direct-mode impression. -/
def testDirectImp : Imp :=
  { id := "i1", width := 0, height := 0, widthMax := 0, heightMax := 0,
    pos := 0, isDirect := true, bidFloorCPM := 0, targetCodename := "t",
    directFormat := some testDirectFormat, formats := [testDirectFormat] }

/-- Fixture banner format (300x250, non-stretch). -/
def testBannerFormat : Format :=
  { codename := "b", isBanner := true, isProxy := false, isNative := false,
    isDirect := false, isStretch := false, width := 300, height := 250 }

/-- Fixture impression lookup mapping the direct wire impression id to the
direct-mode impression (abstracts `Req.ImpressionByIDvariation`). -/
def c4lookup : String → Option Imp :=
  fun s => if s = "i1_d" then some testDirectImp else none

/-- Fixture bid whose extension carries two non-empty URL fields. -/
def c4bid : Bid :=
  { testBid 5 with impID := "i1_d", ext := .fields "https://a" "" "https://b" }

/-- Fixture bid of scenario S6: empty markup, extension
`{"url":"https://x"}`. -/
def s6bid : Bid :=
  { testBid 5 with impID := "i1_d", ext := .fields "https://x" "" "" }

/-- Fixture winning bid of scenario S3 (price 500). -/
def c2big : Bid := { testBid 500 with adID := "x" }

/-- Fixture seats of scenario S3: three bids for the same impression at
prices 100, 500, 300. -/
def c2seats : List SeatBid :=
  [{ bid := [testBid 100, c2big, testBid 300], group := 0 }]

/-- Fixture response state for the optimal-bid cache claim. -/
def c10state : BidResponseState :=
  { seatBid := [{ bid := [testBid 1], group := 0 }], optimalCache := [] }

/-- Fixture impression carrying no dimensions of its own. -/
def testBannerImp : Imp :=
  { id := "i1", width := 0, height := 0, widthMax := 0, heightMax := 0,
    pos := 0, isDirect := false, bidFloorCPM := 0, targetCodename := "t",
    directFormat := none, formats := [testBannerFormat] }

/-!  Theorems. -/

/-- C1: the max-bid filter of `unmarshal` violates its post-condition.  With
`source.MaxBid = 1` and one seat whose bids are priced `[2, 2, 1]`, the
in-place removal inside the `range` loop shifts the backing array so the
second over-priced bid is re-examined at a stale position: the filter
returns a seat whose surviving bids are priced `[2, 1]`, i.e. a bid with
price `2 > MaxBid` remains. -/
theorem maxBidFilter_c1_failing :
    maxBidFilter 1 [{ bid := [testBid 2, testBid 2, testBid 1], group := 0 }] =
      some [{ bid := [testBid 2, testBid 1], group := 0 }] ∧
    ∃ s ∈ [({ bid := [testBid 2, testBid 1], group := 0 } : SeatBid)],
      ∃ b ∈ s.bid, (1 : ℚ) < b.price := by
  decide

/-- C5 counterexample: a form-encoded request type is reported by
`unmarshal` as an "undefined request type" error (the `default` branch of
the switch), not as the "request body type not supported" error the claim
asserts; the two errors are distinct. -/
theorem unmarshalDecode_c5_counterexample :
    unmarshalDecode .postFormEncoded none = .error (.undefinedType .postFormEncoded) ∧
    (Except.error (DecodeErr.undefinedType .postFormEncoded) :
        Except DecodeErr (List SeatBid)) ≠
      .error (.unsupported .postFormEncoded) := by
  refine ⟨rfl, fun hcon => ?_⟩
  injection hcon with h
  exact DecodeErr.noConfusion h

/-- C5 amended: `unmarshal` decodes the body only for the JSON request
type; XML and Protobuf give the "unsupported" error; form-encoded,
plaintext and the undefined type all fall to the "undefined request type"
error. -/
theorem unmarshalDecode_c5_amended (body : Option (List SeatBid)) :
    unmarshalDecode .json body =
      (match body with
        | some r => .ok r
        | none => .error .jsonDecodeFailed) ∧
    unmarshalDecode .xml body = .error (.unsupported .xml) ∧
    unmarshalDecode .protobuff body = .error (.unsupported .protobuff) ∧
    unmarshalDecode .postFormEncoded body = .error (.undefinedType .postFormEncoded) ∧
    unmarshalDecode .plain body = .error (.undefinedType .plain) ∧
    unmarshalDecode .undefined body = .error (.undefinedType .undefined) := by
  refine ⟨?_, rfl, rfl, rfl, rfl, rfl⟩
  cases body <;> rfl

/-- C6: for every impression and banner-or-proxy format, both the 2.x and
the 3.0 mapper emit the same wire impression carrying a banner whose
width/height are the impression's dimensions when either is `>= 1` and the
format's dimensions otherwise, clamped to a floor of 5 (so both are always
`>= 5`), and whose width-max/height-max are the impression's stretch bounds
exactly when the format is stretch and 0 otherwise. -/
theorem impressionByFormat_banner_dims (imp : Imp) (format : Format)
    (np : String) (bf : ℚ) (h : (format.isBanner || format.isProxy) = true) :
    ∃ wi : WireImp, openrtbV2ImpressionByFormat imp format np bf = some wi ∧
      openrtbV3ImpressionByFormat imp format np bf = some wi ∧
      ∃ b : WireBanner, wi.banner = some b ∧
        b.w = max (if imp.width < 1 ∧ imp.height < 1 then format.width else imp.width) 5 ∧
        b.h = max (if imp.width < 1 ∧ imp.height < 1 then format.height else imp.height) 5 ∧
        5 ≤ b.w ∧ 5 ≤ b.h ∧
        b.wMax = (if format.isStretch = true then imp.widthMax else 0) ∧
        b.hMax = (if format.isStretch = true then imp.heightMax else 0) ∧
        b.pos = imp.pos := by
  by_cases hwh : imp.width < 1 ∧ imp.height < 1 <;> by_cases hs : format.isStretch <;>
    simp [openrtbV2ImpressionByFormat, openrtbV3ImpressionByFormat, h, hwh, hs,
      le_max_right]

/-- C6 witness: concrete banner impression (no own dimensions, 300x250
non-stretch format). -/
theorem impressionByFormat_banner_dims_witness :
    (testBannerFormat.isBanner || testBannerFormat.isProxy) = true ∧
    (∃ wi : WireImp, openrtbV2ImpressionByFormat testBannerImp testBannerFormat "" 0 = some wi ∧
      openrtbV3ImpressionByFormat testBannerImp testBannerFormat "" 0 = some wi ∧
      ∃ b : WireBanner, wi.banner = some b ∧
        b.w = max (if testBannerImp.width < 1 ∧ testBannerImp.height < 1 then
          testBannerFormat.width else testBannerImp.width) 5 ∧
        b.h = max (if testBannerImp.width < 1 ∧ testBannerImp.height < 1 then
          testBannerFormat.height else testBannerImp.height) 5 ∧
        5 ≤ b.w ∧ 5 ≤ b.h ∧
        b.wMax = (if testBannerFormat.isStretch = true then testBannerImp.widthMax else 0) ∧
        b.hMax = (if testBannerFormat.isStretch = true then testBannerImp.heightMax else 0) ∧
        b.pos = testBannerImp.pos) :=
  ⟨by decide, impressionByFormat_banner_dims testBannerImp testBannerFormat "" 0 (by decide)⟩

/-- C9: when the seat-bid list is empty after the secure and max-bid
filtering steps, `unmarshal` returns `nil, nil` (no error), and the
response-selection tail of `Bid` then falls back to the empty response
object rather than an error response. -/
theorem unmarshal_empty_nil_nil (secure : Bool) (maxBid : ℚ) (resp : List SeatBid)
    (trace : Bool) (hsec : ¬(secure = true ∧ anyInsecure resp = true))
    (hfil : maxBidFilter maxBid resp = some []) :
    unmarshalNorm secure maxBid resp = some (.ok none) ∧
    bidTail trace (.ok none) = .emptyResp none := by
  refine ⟨?_, rfl⟩
  simp [unmarshalNorm, hsec, hfil]

/-- C9 witness: one seat with one bid priced above `MaxBid = 1`; the filter
empties the response. -/
theorem unmarshal_empty_nil_nil_witness :
    unmarshalNorm false 1 [{ bid := [testBid 2], group := 0 }] = some (.ok none) ∧
    bidTail false (.ok none) = .emptyResp none :=
  unmarshal_empty_nil_nil false 1 [{ bid := [testBid 2], group := 0 }] false
    (by decide) (by decide)

/-- C10: once a call to `OptimalBids` has returned a non-empty list, every
later call on the same response returns the identical list without
re-examining the seat-bids, even if `SeatBid` is replaced in between. -/
theorem optimalBidsCall_cached (st : BidResponseState)
    (h : (optimalBidsCall st).1 ≠ []) (newSeats : List SeatBid) :
    (optimalBidsCall { (optimalBidsCall st).2 with seatBid := newSeats }).1 =
      (optimalBidsCall st).1 := by
  by_cases hc : 0 < st.optimalCache.length
  · simp [optimalBidsCall, hc]
  · simp [optimalBidsCall, hc] at h ⊢
    have hlen : 0 < (optimalBids st.seatBid).length := List.length_pos.mpr h
    simp [hlen]

/-- C10 witness: a response with one bid, whose seat-bids are erased after
the first call. -/
theorem optimalBidsCall_cached_witness :
    (optimalBidsCall c10state).1 ≠ [] ∧
    (optimalBidsCall { (optimalBidsCall c10state).2 with seatBid := [] }).1 =
      (optimalBidsCall c10state).1 :=
  ⟨by decide, optimalBidsCall_cached c10state (by decide) []⟩

/-- C3: on a secure request, `unmarshal` rejects the decoded response with
`ErrResponseAreNotSecure` (producing no ad items) exactly when some bid's
markup contains the literal `http://`; when no bid's markup contains it,
the secure check never produces that rejection. -/
theorem unmarshal_secure (maxBid : ℚ) (resp : List SeatBid) :
    ((∃ seat ∈ resp, ∃ bid ∈ seat.bid, goContains bid.adMarkup "http://" = true) →
      unmarshalNorm true maxBid resp = some (.error .responseAreNotSecure)) ∧
    ((∀ seat ∈ resp, ∀ bid ∈ seat.bid, goContains bid.adMarkup "http://" = false) →
      unmarshalNorm true maxBid resp ≠ some (.error .responseAreNotSecure)) := by
  constructor
  · intro hex
    have hany : anyInsecure resp = true := by
      simpa [anyInsecure, List.any_eq_true] using hex
    simp [unmarshalNorm, hany]
  · intro hall
    have hany : anyInsecure resp = false := by
      simp only [anyInsecure, List.any_eq_false, Bool.not_eq_true]
      intro seat hseat bid hbid
      exact hall seat hseat bid hbid
    simp only [unmarshalNorm, hany]
    cases hfil : maxBidFilter maxBid resp with
    | none => simp
    | some seats =>
      by_cases hlen : seats.length = 0 <;> simp [hlen]

/-- C3 witness: a response with an insecure bid is rejected; a response
whose only markup is `https` is not rejected by the secure check. -/
theorem unmarshal_secure_witness :
    unmarshalNorm true 0 [{ bid := [{ testBid 1 with adMarkup := "http://x" }], group := 0 }] =
      some (.error .responseAreNotSecure) ∧
    unmarshalNorm true 0 [{ bid := [{ testBid 1 with adMarkup := "https://x" }], group := 0 }] ≠
      some (.error .responseAreNotSecure) :=
  ⟨(unmarshal_secure 0 _).1 (by decide), (unmarshal_secure 0 _).2 (by decide)⟩

/-- C4 counterexample: a direct-mode bid with empty markup and extension
`{"url":"https://a","link":"https://b"}` has its markup set to
`"https://b"` — the lexicographically largest field (Go's builtin `max`
over strings) — not to `"https://a"`, the first non-empty field of
`{url, landingpage, link}` the claim asserts. -/
theorem prepareBid_c4_counterexample :
    (prepareBid testEnv c4lookup "r1" "b1" c4bid).adMarkup = "https://b" ∧
    "https://b" ≠ "https://a" := by
  decide

/-- C4 amended: during `Prepare`, a direct-mode bid with empty `AdMarkup`
has it set to the lexicographically greatest (Go builtin `max`) of the
extension's `{url, landingpage, link}` fields — which is the unique
non-empty field whenever at most one is non-empty — then macro-substituted;
in particular scenario S6 (extension `{"url":"https://x"}`) yields an ad
item with `ActionLink = "https://x"`. -/
theorem prepareBid_c4_amended (env : PrepareEnv) (lookup : String → Option Imp)
    (respID respBidID : String) (bid : Bid) (imp : Imp) (u l k : String)
    (hl : lookup bid.impID = some imp) (hd : imp.isDirect = true)
    (hm : bid.adMarkup = "") (he : bid.ext = .fields u l k)
    (hx : "<?xml".data.isPrefixOf (goMax2 (goMax2 u l) k).data = false) :
    (prepareBid env lookup respID respBidID bid).adMarkup =
      goReplace (macroPairs env respID respBidID bid) (goMax2 (goMax2 u l) k) ∧
    ((prepareResponse testEnv c4lookup "r1" "b1"
        [{ bid := [s6bid], group := 0 }]).2.map RBItem.actionLink) = ["https://x"] := by
  constructor
  · by_cases hwh : bid.w = 0 ∧ bid.h = 0 <;>
      simp [prepareBid, hl, hd, hm, he, hwh, hx, customDirectURL, macroPairs]
  · decide

/-- C4 witness: the amended statement at the S6 fixture. -/
theorem prepareBid_c4_amended_witness :
    (prepareBid testEnv c4lookup "r1" "b1" s6bid).adMarkup =
      goReplace (macroPairs testEnv "r1" "b1" s6bid) (goMax2 (goMax2 "https://x" "") "") ∧
    ((prepareResponse testEnv c4lookup "r1" "b1"
        [{ bid := [s6bid], group := 0 }]).2.map RBItem.actionLink) = ["https://x"] :=
  prepareBid_c4_amended testEnv c4lookup "r1" "b1" s6bid testDirectImp "https://x" "" ""
    (by decide) rfl rfl rfl (by decide)

theorem u64_eq : u64 = 18446744073709551616 := by norm_num [u64]

theorem nanos_eq : nanosPerSecond = 1000000000 := rfl

theorem usub64_small (a b : Nat) (hba : b ≤ a) (ha : a < u64) :
    usub64 a b = a - b := by
  have h1 : a + u64 - b = a - b + u64 := by omega
  rw [usub64, h1, Nat.add_mod_right]
  exact Nat.mod_eq_of_lt (lt_of_le_of_lt (Nat.sub_le _ _) ha)

/-- Behaviour of a healthy `Test` call strictly inside the current RPS
window: pure limit check, no reset. -/
theorem testCall_in_window (R eI : Int) (hR : 0 < R) (now : Nat)
    (st : DriverState) (hlt : ¬(nanosPerSecond ≤ usub64 now st.lastRequestTime)) :
    testCall R eI true true now st =
      (if R ≤ st.rpsCurrent then (false, { st with skips := st.skips + 1 })
       else (true, st)) := by
  unfold testCall
  rw [if_pos hR, if_neg (show ¬(eI = 0 ∧ (true : Bool) = false) from by simp),
    if_neg hlt]
  by_cases hrl : R ≤ st.rpsCurrent
  · simp only [if_pos hrl]
  · simp [hrl]

/-- Invariant of the `Test`-then-`Bid` pattern inside one RPS window: as
long as every timestamp stays within one second of the last reset, the
number of admitted calls plus the entering RPS count never exceeds the
configured limit (or the entering count, if it already exceeds it). -/
theorem runTestBid_count_le (R eI : Int) (hR : 0 < R) (t0 : Nat)
    (h64 : t0 + nanosPerSecond < u64) :
    ∀ (ts : List Nat) (st : DriverState), st.lastRequestTime = t0 →
      (∀ t ∈ ts, t0 ≤ t ∧ t < t0 + nanosPerSecond) →
      (((runTestBid R eI true true ts st).1.count true : ℤ) + st.rpsCurrent ≤
        max R st.rpsCurrent)
  | [], st, _, _ => by
    simp [runTestBid, le_max_right]
  | t :: ts, st, hlast, hts => by
    have htmem := hts t (List.mem_cons_self _ _)
    have htu : t < u64 := htmem.2.trans h64
    have hlt : ¬(nanosPerSecond ≤ usub64 t st.lastRequestTime) := by
      rw [hlast, usub64_small t t0 htmem.1 htu, nanos_eq]
      have h2 := htmem.2
      rw [nanos_eq] at h2
      omega
    have hts' : ∀ x ∈ ts, t0 ≤ x ∧ x < t0 + nanosPerSecond :=
      fun x hx => hts x (List.mem_cons_of_mem _ hx)
    have hstep := testCall_in_window R eI hR t st hlt
    by_cases hrl : R ≤ st.rpsCurrent
    · rw [if_pos hrl] at hstep
      have ih := runTestBid_count_le R eI hR t0 h64 ts
        { st with skips := st.skips + 1 } hlast hts'
      simp only [runTestBid, hstep, List.count_cons]
      simpa using ih
    · rw [if_neg hrl] at hstep
      have hlast' : (bidRPSInc st).lastRequestTime = t0 := hlast
      have ih := runTestBid_count_le R eI hR t0 h64 ts (bidRPSInc st) hlast' hts'
      have hrp : (bidRPSInc st).rpsCurrent = st.rpsCurrent + 1 := rfl
      rw [hrp] at ih
      have hmax1 : max R (st.rpsCurrent + 1) = R := max_eq_left (by omega)
      have hmax2 : max R st.rpsCurrent = R := max_eq_left (by omega)
      rw [hmax1] at ih
      simp only [runTestBid, hstep, List.count_cons]
      rw [hmax2]
      push_cast at ih ⊢
      simp only [beq_self_eq_true, if_true]
      omega

/-- C8 counterexample: `Test` alone never increments the RPS counter (only
`Bid` does), so with `source.RPS = 2` and five bare `Test` calls inside one
second all five return `true` — not at most two — and the skip metric stays
at zero rather than being incremented three times. -/
theorem runTests_c8_counterexample :
    (runTests 2 0 true true
      [2000000000, 2001000000, 2002000000, 2003000000, 2004000000] ⟨0, 0, 0⟩).1 =
      [true, true, true, true, true] ∧
    (runTests 2 0 true true
      [2000000000, 2001000000, 2002000000, 2003000000, 2004000000]
        ⟨0, 0, 0⟩).1.count true = 5 ∧
    ¬(5 ≤ 2) ∧
    (runTests 2 0 true true
      [2000000000, 2001000000, 2002000000, 2003000000, 2004000000]
        ⟨0, 0, 0⟩).2.skips = 0 := by
  decide

/-- C8 amended: in the documented `Test`-then-`Bid` usage (each admitted
call immediately followed by `Bid`, which increments the RPS counter), a
fresh driver admits at most `R` calls within any window of one second with
`source.RPS = R > 0`; in particular with `R = 2` and five calls in one
second the decisions are `[true, true, false, false, false]` and the skip
metric is incremented three times. -/
theorem runTestBid_c8_amended (R eI : Int) (hR : 0 < R) (t0 : Nat)
    (ts : List Nat) (ht0 : nanosPerSecond ≤ t0) (h64 : t0 + nanosPerSecond < u64)
    (hts : ∀ t ∈ ts, t0 ≤ t ∧ t < t0 + nanosPerSecond) :
    (((runTestBid R eI true true (t0 :: ts) ⟨0, 0, 0⟩).1.count true : ℤ) ≤ R) ∧
    (runTestBid 2 0 true true
      [2000000000, 2001000000, 2002000000, 2003000000, 2004000000] ⟨0, 0, 0⟩).1 =
      [true, true, false, false, false] ∧
    (runTestBid 2 0 true true
      [2000000000, 2001000000, 2002000000, 2003000000, 2004000000]
        ⟨0, 0, 0⟩).2.skips = 3 := by
  refine ⟨?_, by decide, by decide⟩
  have h0u : t0 < u64 := lt_of_le_of_lt (Nat.le_add_right _ _) h64
  have hge : nanosPerSecond ≤ usub64 t0 0 := by
    rw [usub64_small t0 0 (Nat.zero_le _) h0u]
    simpa using ht0
  have hstep : testCall R eI true true t0 ⟨0, 0, 0⟩ = (true, ⟨t0, 0, 0⟩) := by
    unfold testCall
    rw [if_pos hR, if_neg (show ¬(eI = 0 ∧ (true : Bool) = false) from by simp),
      if_pos hge]
    simp
  have ih := runTestBid_count_le R eI hR t0 h64 ts (bidRPSInc ⟨t0, 0, 0⟩) rfl hts
  have h1 : (bidRPSInc (⟨t0, 0, 0⟩ : DriverState)).rpsCurrent = 1 := rfl
  rw [h1, max_eq_left (by omega)] at ih
  simp only [runTestBid, hstep, List.count_cons, beq_self_eq_true, if_true]
  push_cast at ih ⊢
  omega

/-- C8 witness: the amended statement at the concrete five-call scenario. -/
theorem runTestBid_c8_amended_witness :
    (((runTestBid 2 0 true true
      (2000000000 :: [2001000000, 2002000000, 2003000000, 2004000000])
        ⟨0, 0, 0⟩).1.count true : ℤ) ≤ 2) ∧
    (runTestBid 2 0 true true
      [2000000000, 2001000000, 2002000000, 2003000000, 2004000000] ⟨0, 0, 0⟩).1 =
      [true, true, false, false, false] ∧
    (runTestBid 2 0 true true
      [2000000000, 2001000000, 2002000000, 2003000000, 2004000000]
        ⟨0, 0, 0⟩).2.skips = 3 :=
  runTestBid_c8_amended 2 0 (by decide) 2000000000
    [2001000000, 2002000000, 2003000000, 2004000000] (by decide) (by decide)
    (by decide)

theorem mapGet_append (m l : List (String × Bid)) (k : String) :
    mapGet (m ++ l) k =
      (match mapGet m k with
        | some v => some v
        | none => mapGet l k) := by
  induction m with
  | nil => simp [mapGet]
  | cons kv m ih => by_cases h : kv.1 = k <;> simp [mapGet, h, ih]

theorem mapGet_replace (m : List (String × Bid)) (k : String) (b : Bid) :
    mapGet (m.map (fun kv => if kv.1 = k then (k, b) else kv)) k =
      (mapGet m k).map (fun _ => b) := by
  induction m with
  | nil => simp [mapGet]
  | cons kv m ih => by_cases h : kv.1 = k <;> simp [mapGet, h, ih]

theorem mapGet_replace_ne (m : List (String × Bid)) (k : String) (b : Bid)
    (k' : String) (h : k' ≠ k) :
    mapGet (m.map (fun kv => if kv.1 = k then (k, b) else kv)) k' =
      mapGet m k' := by
  induction m with
  | nil => simp [mapGet]
  | cons kv m ih =>
    by_cases hk : kv.1 = k
    · simp [mapGet, hk, Ne.symm h, ih]
    · by_cases hk' : kv.1 = k' <;> simp [mapGet, hk, hk', ih, h]

theorem mapGet_eq_none_iff (m : List (String × Bid)) (k : String) :
    mapGet m k = none ↔ ∀ kv ∈ m, (kv : String × Bid).1 ≠ k := by
  induction m with
  | nil => simp [mapGet]
  | cons kv m ih => by_cases h : kv.1 = k <;> simp [mapGet, h, ih]

theorem mapGet_of_mem (m : List (String × Bid)) (hnd : (m.map Prod.fst).Nodup)
    (k : String) (b : Bid) (hm : (k, b) ∈ m) : mapGet m k = some b := by
  induction m with
  | nil => simp at hm
  | cons kv m ih =>
    simp only [List.map_cons, List.nodup_cons] at hnd
    rcases List.mem_cons.1 hm with h | h
    · rw [← h]
      simp [mapGet]
    · have hk : kv.1 ≠ k := by
        intro hkk
        exact hnd.1 (hkk ▸ (List.mem_map.2 ⟨(k, b), h, rfl⟩))
      simp [mapGet, hk, ih hnd.2 h]

theorem mem_of_mapGet (m : List (String × Bid)) (k : String) (b : Bid)
    (h : mapGet m k = some b) : (k, b) ∈ m := by
  induction m with
  | nil => simp [mapGet] at h
  | cons kv m ih =>
    by_cases hk : kv.1 = k
    · simp only [mapGet, if_pos hk] at h
      have : kv = (k, b) := Prod.ext hk (Option.some.inj h)
      exact this ▸ List.mem_cons_self _ _
    · simp only [mapGet, if_neg hk] at h
      exact List.mem_cons_of_mem _ (ih h)

theorem optimalUpd_get_self (m : List (String × Bid)) (b : Bid) :
    mapGet (optimalUpd m b) b.impID = pickBest (mapGet m b.impID) b := by
  unfold optimalUpd
  cases h : mapGet m b.impID with
  | none =>
    rw [mapGet_append, h, pickBest]
    simp [mapGet]
  | some o =>
    by_cases hp : o.price < b.price
    · simp [if_pos hp, pickBest, mapGet_replace, h]
    · simp only [if_neg hp, pickBest, h]

theorem optimalUpd_get_ne (m : List (String × Bid)) (b : Bid) (k : String)
    (h : k ≠ b.impID) :
    mapGet (optimalUpd m b) k = mapGet m k := by
  unfold optimalUpd
  cases hm : mapGet m b.impID with
  | none =>
    rw [mapGet_append]
    cases hk : mapGet m k with
    | none => simp [mapGet, Ne.symm h]
    | some v => simp
  | some o =>
    by_cases hp : o.price < b.price
    · simp only [if_pos hp]
      exact mapGet_replace_ne m b.impID b k h
    · simp only [if_neg hp]

theorem optimalUpd_wf (m : List (String × Bid)) (b : Bid) (h : mapWF m) :
    mapWF (optimalUpd m b) := by
  unfold optimalUpd
  cases hm : mapGet m b.impID with
  | none =>
    refine ⟨?_, ?_⟩
    · rw [List.map_append, List.nodup_append]
      refine ⟨h.1, by simp, ?_⟩
      intro x hx
      have := (mapGet_eq_none_iff m b.impID).1 hm
      simp only [List.mem_map] at hx
      obtain ⟨kv, hkv, rfl⟩ := hx
      simpa using fun hcon => this kv hkv hcon
    · intro kv hkv
      rcases List.mem_append.1 hkv with hk | hk
      · exact h.2 kv hk
      · simp at hk
        simp [hk]
  | some o =>
    dsimp only
    by_cases hp : o.price < b.price
    · rw [if_pos hp]
      refine ⟨?_, ?_⟩
      · have hkeys : ((m.map (fun kv => if kv.1 = b.impID then (b.impID, b) else kv)).map
            Prod.fst) = m.map Prod.fst := by
          rw [List.map_map]
          refine List.map_congr_left ?_
          intro kv _
          by_cases hk : kv.1 = b.impID <;> simp [hk]
        rw [hkeys]
        exact h.1
      · intro kv hkv
        simp only [List.mem_map] at hkv
        obtain ⟨kv0, hkv0, rfl⟩ := hkv
        by_cases hk : kv0.1 = b.impID <;> simp [hk, h.2 kv0 hkv0]
    · rw [if_neg hp]
      exact h

theorem foldl_optimalUpd_wf (l : List Bid) :
    ∀ m, mapWF m → mapWF (l.foldl optimalUpd m) := by
  induction l with
  | nil => intro m hm; simpa using hm
  | cons b l ih =>
    intro m hm
    rw [List.foldl_cons]
    exact ih _ (optimalUpd_wf m b hm)

theorem foldl_optimalUpd_get (l : List Bid) :
    ∀ (m : List (String × Bid)) (k : String),
      mapGet (l.foldl optimalUpd m) k =
        (l.filter (fun b => b.impID = k)).foldl pickBest (mapGet m k) := by
  induction l with
  | nil => intro m k; simp
  | cons b l ih =>
    intro m k
    rw [List.foldl_cons]
    by_cases h : b.impID = k
    · have hf : (b :: l).filter (fun b => decide (b.impID = k)) =
          b :: l.filter (fun b => decide (b.impID = k)) := by
        simp [List.filter_cons, h]
      rw [hf, List.foldl_cons, ih]
      subst h
      rw [optimalUpd_get_self]
    · have hf : (b :: l).filter (fun b => decide (b.impID = k)) =
          l.filter (fun b => decide (b.impID = k)) := by
        simp [List.filter_cons, h]
      rw [hf, ih, optimalUpd_get_ne m b k (fun hk => h hk.symm)]

theorem pickBest_foldl_some (l : List Bid) :
    ∀ a b : Bid, l.foldl pickBest (some a) = some b →
      (b = a ∧ ∀ x ∈ l, x.price ≤ a.price) ∨
      (∃ pre post, l = pre ++ b :: post ∧ a.price < b.price ∧
        (∀ x ∈ pre, x.price < b.price) ∧ (∀ x ∈ post, x.price ≤ b.price)) := by
  induction l with
  | nil =>
    intro a b h
    simp only [List.foldl_nil, Option.some.injEq] at h
    exact Or.inl ⟨h.symm, by simp⟩
  | cons x xs ih =>
    intro a b h
    rw [List.foldl_cons] at h
    by_cases hx : a.price < x.price
    · rw [show pickBest (some a) x = some x from by simp [pickBest, hx]] at h
      rcases ih x b h with ⟨rfl, hall⟩ | ⟨pre, post, heq, hxb, hpre, hpost⟩
      · exact Or.inr ⟨[], xs, rfl, hx, by simp, hall⟩
      · exact Or.inr ⟨x :: pre, post, by rw [heq, List.cons_append],
          hx.trans hxb, by
            intro y hy
            rcases List.mem_cons.1 hy with rfl | hy
            · exact hxb
            · exact hpre y hy, hpost⟩
    · rw [show pickBest (some a) x = some a from by simp [pickBest, hx]] at h
      rcases ih a b h with ⟨rfl, hall⟩ | ⟨pre, post, heq, hab, hpre, hpost⟩
      · refine Or.inl ⟨rfl, ?_⟩
        intro y hy
        rcases List.mem_cons.1 hy with rfl | hy
        · exact le_of_not_lt hx
        · exact hall y hy
      · refine Or.inr ⟨x :: pre, post, by rw [heq, List.cons_append], hab, ?_, hpost⟩
        intro y hy
        rcases List.mem_cons.1 hy with rfl | hy
        · exact lt_of_le_of_lt (le_of_not_lt hx) hab
        · exact hpre y hy

theorem pickBest_foldl_none (l : List Bid) (b : Bid)
    (h : l.foldl pickBest none = some b) :
    ∃ pre post, l = pre ++ b :: post ∧ (∀ x ∈ pre, x.price < b.price) ∧
      (∀ x ∈ post, x.price ≤ b.price) := by
  cases l with
  | nil => simp at h
  | cons x xs =>
    rw [List.foldl_cons, show pickBest none x = some x from rfl] at h
    rcases pickBest_foldl_some xs x b h with ⟨rfl, hall⟩ | ⟨pre, post, heq, hxb, hpre, hpost⟩
    · exact ⟨[], xs, rfl, by simp, hall⟩
    · refine ⟨x :: pre, post, by rw [heq, List.cons_append], ?_, hpost⟩
      intro y hy
      rcases List.mem_cons.1 hy with rfl | hy
      · exact hxb
      · exact hpre y hy

/-- C2: `OptimalBids` returns at most one bid per distinct impression id;
each returned bid occurs in the response, its price is greater than or
equal to the price of every bid for the same impression id in any seat,
and it is the first bid (in seat-then-bid traversal order) attaining that
maximum — price ties keep the first-seen bid. -/
theorem optimalBids_optimal (seats : List SeatBid) :
    ((optimalBids seats).map Bid.impID).Nodup ∧
    ∀ b ∈ optimalBids seats,
      b ∈ (seats.map SeatBid.bid).flatten ∧
      (∀ b' ∈ (seats.map SeatBid.bid).flatten, b'.impID = b.impID →
        b'.price ≤ b.price) ∧
      ∃ pre post,
        (seats.map SeatBid.bid).flatten.filter (fun x => x.impID = b.impID) =
          pre ++ b :: post ∧
        ∀ b' ∈ pre, b'.price < b.price := by
  have hwf : mapWF ((seats.map SeatBid.bid).flatten.foldl optimalUpd []) :=
    foldl_optimalUpd_wf _ [] ⟨by simp, by simp⟩
  constructor
  · unfold optimalBids
    rw [List.map_map]
    have hmk : ((seats.map SeatBid.bid).flatten.foldl optimalUpd []).map
        (Bid.impID ∘ Prod.snd) =
        ((seats.map SeatBid.bid).flatten.foldl optimalUpd []).map Prod.fst := by
      refine List.map_congr_left ?_
      intro kv hkv
      simpa using hwf.2 kv hkv
    rw [hmk]
    exact hwf.1
  · intro b hb
    unfold optimalBids at hb
    obtain ⟨kv, hkv, hkvb⟩ := List.mem_map.1 hb
    have hkey : kv.1 = b.impID := by
      rw [← hkvb]
      exact (hwf.2 kv hkv).symm
    have hmem : (b.impID, b) ∈ (seats.map SeatBid.bid).flatten.foldl optimalUpd [] := by
      have hkvp : kv = (b.impID, b) := Prod.ext hkey hkvb
      exact hkvp ▸ hkv
    have hget := mapGet_of_mem _ hwf.1 _ _ hmem
    rw [foldl_optimalUpd_get] at hget
    simp only [mapGet] at hget
    obtain ⟨pre, post, heq, hpre, hpost⟩ := pickBest_foldl_none _ _ hget
    refine ⟨?_, ?_, pre, post, heq, hpre⟩
    · have hbm : b ∈ (seats.map SeatBid.bid).flatten.filter
          (fun x => decide (x.impID = b.impID)) := by
        rw [heq]
        exact List.mem_append.2 (Or.inr (List.mem_cons_self _ _))
      exact (List.mem_filter.1 hbm).1
    · intro b' hb' himp
      have hmem' : b' ∈ (seats.map SeatBid.bid).flatten.filter
          (fun x => decide (x.impID = b.impID)) :=
        List.mem_filter.2 ⟨hb', by simp [himp]⟩
      rw [heq] at hmem'
      rcases List.mem_append.1 hmem' with hmm | hmm
      · exact le_of_lt (hpre b' hmm)
      · rcases List.mem_cons.1 hmm with rfl | hmm
        · exact le_refl _
        · exact hpost b' hmm

/-- C2 witness: scenario S3 — three bids for impression `"i1_b"` at prices
100, 500, 300; the selected bid is in the response and beats the price-300
bid. -/
theorem optimalBids_optimal_witness :
    c2big ∈ (c2seats.map SeatBid.bid).flatten ∧
    (testBid 300).price ≤ c2big.price :=
  ⟨((optimalBids_optimal c2seats).2 c2big (by decide)).1,
   ((optimalBids_optimal c2seats).2 c2big (by decide)).2.1 (testBid 300)
     (by decide) (by decide)⟩

theorem hexVal_hexDigitChar : ∀ d, d < 16 → hexVal (hexDigitChar d) = some d := by
  decide

theorem bsq_ne : ('\\' : Char) ≠ '"' := by decide

theorem escU_ne : ('u' : Char) ≠ '"' ∧ ('u' : Char) ≠ '\\' ∧ ('u' : Char) ≠ '/' ∧
    ('u' : Char) ≠ 'b' ∧ ('u' : Char) ≠ 'f' ∧ ('u' : Char) ≠ 'n' ∧
    ('u' : Char) ≠ 'r' ∧ ('u' : Char) ≠ 't' := by decide

theorem jsonStrBody_escape (c : Char) (rest acc : List Char) :
    jsonStrBody (goJSONEscapeChar c ++ rest) acc = jsonStrBody rest (c :: acc) := by
  obtain ⟨u1, u2, u3, u4, u5, u6, u7, u8⟩ := escU_ne
  by_cases h1 : c = '"'
  · subst h1
    rw [jsonStrBody.eq_def]
    simp [goJSONEscapeChar]
  by_cases h2 : c = '\\'
  · subst h2
    rw [jsonStrBody.eq_def]
    simp [goJSONEscapeChar]
  by_cases h3 : c = '\n'
  · subst h3
    rw [jsonStrBody.eq_def]
    simp [goJSONEscapeChar]
  by_cases h4 : c = '\r'
  · subst h4
    rw [jsonStrBody.eq_def]
    simp [goJSONEscapeChar]
  by_cases h5 : c = '\t'
  · subst h5
    rw [jsonStrBody.eq_def]
    simp [goJSONEscapeChar]
  by_cases h6 : c = '<'
  · subst h6
    rw [jsonStrBody.eq_def]
    simp [goJSONEscapeChar, hexVal, (by decide : Char.ofNat 60 = '<')]
  by_cases h7 : c = '>'
  · subst h7
    rw [jsonStrBody.eq_def]
    simp [goJSONEscapeChar, hexVal, (by decide : Char.ofNat 62 = '>')]
  by_cases h8 : c = '&'
  · subst h8
    rw [jsonStrBody.eq_def]
    simp [goJSONEscapeChar, hexVal, (by decide : Char.ofNat 38 = '&')]
  by_cases h9 : c.toNat < 32
  · have hd1 : c.toNat / 16 < 16 := by omega
    have hd2 : c.toNat % 16 < 16 := by omega
    have hmod : 16 * (c.toNat / 16) + c.toNat % 16 = c.toNat := by omega
    rw [jsonStrBody.eq_def]
    simp [goJSONEscapeChar, h1, h2, h3, h4, h5, h6, h7, h8, h9,
      (by decide : hexVal '0' = some 0), hexVal_hexDigitChar _ hd1,
      hexVal_hexDigitChar _ hd2, hmod, Char.ofNat_toNat]
  by_cases h10 : c.toNat = 8232
  · have hc : Char.ofNat 8232 = c := by
      rw [← h10]
      exact Char.ofNat_toNat c
    rw [jsonStrBody.eq_def]
    simp [goJSONEscapeChar, h1, h2, h3, h4, h5, h6, h7, h8, h9, h10, hexVal, hc]
  by_cases h11 : c.toNat = 8233
  · have hc : Char.ofNat 8233 = c := by
      rw [← h11]
      exact Char.ofNat_toNat c
    rw [jsonStrBody.eq_def]
    simp [goJSONEscapeChar, h1, h2, h3, h4, h5, h6, h7, h8, h9, h10, h11,
      hexVal, hc]
  rw [jsonStrBody.eq_def]
  simp [goJSONEscapeChar, h1, h2, h3, h4, h5, h6, h7, h8, h9, h10, h11]

theorem jsonStrBody_marshal (cs : List Char) : ∀ acc : List Char,
    jsonStrBody ((cs.map goJSONEscapeChar).flatten ++ ['"']) acc =
      some (acc.reverse ++ cs) := by
  induction cs with
  | nil =>
    intro acc
    simp [jsonStrBody]
  | cons c cs ih =>
    intro acc
    rw [List.map_cons, List.flatten_cons, List.append_assoc, jsonStrBody_escape,
      ih]
    simp

/-- C7: for every serialization of the native request, the emitted payload
is the JSON-string encoding of `{"native":<serialized>}`; parsing it once
as a JSON string value recovers exactly that text, which begins with
`{"native":` and whose remaining content is the native-request
serialization followed by the closing brace. -/
theorem nativeWrap_roundtrip (serialized : String) :
    jsonParseStringLit (openrtbNativeWrap serialized) =
      some ("\x7b\"native\":" ++ serialized ++ "\x7d") ∧
    ("\x7b\"native\":").data <+:
      ("\x7b\"native\":" ++ serialized ++ "\x7d").data := by
  constructor
  · have h2 : jsonParseStringLit (openrtbNativeWrap serialized) =
        (jsonStrBody (((("\x7b\"native\":" ++ serialized ++ "\x7d").data).map
          goJSONEscapeChar).flatten ++ ['"']) []).map (fun cs => ⟨cs⟩) := rfl
    rw [h2, jsonStrBody_marshal]
    simp only [List.reverse_nil, List.nil_append, Option.map_some]
    refine congrArg some (String.ext ?_)
    simp [String.data_append]
  · rw [String.data_append, String.data_append, List.append_assoc]
    exact List.prefix_append _ _

end AdsourceOpenrtb
